import Mathlib

/-!
Shallow embedding of `src/main.py` (sentence pattern matching) and proofs
about its specification.  Strings are modelled as lists of characters,
Python's fallible operations return `Option`.
-/

/-- Strings are modelled as lists of characters. -/
abbrev Str := List Char

def spaceChar : Char := Char.ofNat 32

def tabChar : Char := Char.ofNat 9

def nlChar : Char := Char.ofNat 10

def vtChar : Char := Char.ofNat 11

def ffChar : Char := Char.ofNat 12

def crChar : Char := Char.ofNat 13

def commaChar : Char := Char.ofNat 44

/-- The ASCII whitespace characters removed by Python's `str.strip()`. -/
def pySpace (c : Char) : Bool :=
  c == spaceChar || c == tabChar || c == nlChar || c == vtChar || c == ffChar || c == crChar

/-- Python `line.strip()`: drop whitespace from both ends. -/
def pyStrip (l : Str) : Str :=
  ((l.dropWhile pySpace).reverse.dropWhile pySpace).reverse

/-- Python `s.split(" ")`: split on single spaces, keeping empty segments;
the result is never the empty list (splitting `""` gives `[""]`). -/
def splitOnSpace : Str → List Str
  | [] => [[]]
  | c :: cs =>
    match splitOnSpace cs with
    | [] => [[]]
    | w :: ws => if c = spaceChar then [] :: w :: ws else (c :: w) :: ws

/-- Python `sep.join(ws)`. -/
def joinSep (sep : Str) : List Str → Str
  | [] => []
  | [w] => w
  | w :: ws => w ++ sep ++ joinSep sep ws

/-- Python list indexing `l[i]` for `int` indexes: negative indexes count
from the end, out-of-range indexes raise `IndexError` (modelled as `none`). -/
def pyListGet {α : Type} (l : List α) (index : Int) : Option α :=
  let i : Int := if index < 0 then index + l.length else index
  if 0 ≤ i then l[i.toNat]? else none

/-- `Word = namedtuple("Word", ["word_index", "word_str"])`. -/
structure Word where
  word_index : Nat
  word_str : Str
deriving DecidableEq

/-- A `Sentence` is its list of words. -/
abbrev Sentence := List Word

/-- `Sentence.create`: strip the line, split on spaces, enumerate. -/
def Sentence.create (line : Str) : Sentence :=
  (splitOnSpace (pyStrip line)).enum.map (fun wi => ⟨wi.1, wi.2⟩)

/-- `Sentence.get_words_string`: space-join the word texts. -/
def Sentence.get_words_string (words : List Word) : Str :=
  joinSep [spaceChar] (words.map Word.word_str)

/-- `Sentence.__str__`. -/
def Sentence.render (s : Sentence) : Str :=
  Sentence.get_words_string s

/-- `Sentence.parse_to_sentences`. -/
def Sentence.parse_to_sentences (lines : List Str) : List Sentence :=
  lines.map Sentence.create

/-- `Sentence.get_word_str_by_index`: `self.words[index].word_str`. -/
def Sentence.get_word_str_by_index (s : Sentence) (index : Int) : Option Str :=
  (pyListGet s index).map Word.word_str

/-- `Sentence.get_sub_sentence_words`:
`self.words[start_index:pop_index] + self.words[pop_index + 1: end_index]`
(the `None` default for `pop_index` is `start_index`). -/
def Sentence.get_sub_sentence_words (s : Sentence) (start_index end_index : Nat)
    (pop_index : Option Nat) : List Word :=
  let p := pop_index.getD start_index
  (s.drop start_index).take (p - start_index) ++ (s.drop (p + 1)).take (end_index - (p + 1))

/-- `Pattern`: a value key `(pattern_string, pattern_index)`. -/
structure Pattern where
  pattern_string : Str
  pattern_index : Nat
deriving DecidableEq

/-- `Pattern.START_INDEX`. -/
def Pattern.START_INDEX : Nat := 2

/-- `Pattern.extract_pattern_string`: the sentence's words from the start
offset to the end with the word at `pattern_index` removed, space-joined. -/
def Pattern.extract_pattern_string (s : Sentence) (pattern_index : Nat) : Str :=
  Sentence.get_words_string
    (s.get_sub_sentence_words Pattern.START_INDEX s.length (some pattern_index))

/-- `Pattern.create`. -/
def Pattern.create (s : Sentence) (pattern_index : Nat) : Pattern :=
  ⟨Pattern.extract_pattern_string s pattern_index, pattern_index⟩

/-- Association-list lookup, the model of `pattern in self._data` /
`self._data[pattern]` (Python dict keys here are never duplicated). -/
def dictLookup (d : List (Pattern × List Sentence)) (p : Pattern) : Option (List Sentence) :=
  match d with
  | [] => none
  | (q, l) :: rest => if q = p then some l else dictLookup rest p

/-- Append a sentence to the list stored under key `p` (first occurrence). -/
def dictAppend (d : List (Pattern × List Sentence)) (p : Pattern) (s : Sentence) :
    List (Pattern × List Sentence) :=
  match d with
  | [] => []
  | (q, l) :: rest => if q = p then (q, l ++ [s]) :: rest else (q, l) :: dictAppend rest p s

/-- `PatternCollection`: the dict `_data` (insertion ordered) and the set
`_pattern_groups` (modelled as a duplicate-free insertion list; only
membership matters). -/
structure PatternCollection where
  data : List (Pattern × List Sentence)
  pattern_groups : List Pattern
deriving DecidableEq

/-- `PatternCollection.has_pattern`. -/
def PatternCollection.has_pattern (pc : PatternCollection) (p : Pattern) : Bool :=
  (dictLookup pc.data p).isSome

/-- `PatternCollection.add_pattern`: new key with a singleton sentence list. -/
def PatternCollection.add_pattern (pc : PatternCollection) (p : Pattern) (s : Sentence) :
    PatternCollection :=
  ⟨pc.data ++ [(p, [s])], pc.pattern_groups⟩

/-- `PatternCollection.update_pattern`: append the sentence under the key and
flag the key as a group. -/
def PatternCollection.update_pattern (pc : PatternCollection) (p : Pattern) (s : Sentence) :
    PatternCollection :=
  ⟨dictAppend pc.data p s,
    if p ∈ pc.pattern_groups then pc.pattern_groups else pc.pattern_groups ++ [p]⟩

/-- Map a fallible function over a list, failing if any element fails. -/
def listMapM {α β : Type} (f : α → Option β) : List α → Option (List β)
  | [] => some []
  | a :: rest =>
    match f a, listMapM f rest with
    | some b, some bs => some (b :: bs)
    | _, _ => none

def changingWordHeader : Str := "The changing word was: ".toList

/-- `PatternCollection.get_pattern_collection_paragraph`: body lines joined by
LF, then `"\nThe changing word was: "` plus the comma-joined changing words,
ending in CR LF.  `none` models an `IndexError` while reading the changing
words. -/
def PatternCollection.get_pattern_collection_paragraph (sentences : List Sentence)
    (pattern_index : Nat) : Option Str :=
  match listMapM (fun s => s.get_word_str_by_index (pattern_index : Int)) sentences with
  | none => none
  | some ws =>
    some (joinSep [nlChar] (sentences.map Sentence.render) ++
      nlChar :: changingWordHeader ++ joinSep [commaChar] ws ++ [crChar, nlChar])

/-- `PatternCollection.extract_pattern_groups_output`: one paragraph per
flagged group, in the stored group order. -/
def PatternCollection.extract_pattern_groups_output (pc : PatternCollection) :
    Option (List Str) :=
  listMapM (fun p =>
    match dictLookup pc.data p with
    | none => none
    | some sentences =>
      PatternCollection.get_pattern_collection_paragraph sentences p.pattern_index)
    pc.pattern_groups

/-- The inner loop of `collect_patterns` for one sentence: scan candidate
indexes in order; on the first existing pattern, update it and stop
(`break`); otherwise register a new singleton pattern and continue. -/
def scanSentence (pc : PatternCollection) (s : Sentence) : List Nat → PatternCollection
  | [] => pc
  | i :: rest =>
    let p := Pattern.create s i
    if pc.has_pattern p then pc.update_pattern p s
    else scanSentence (pc.add_pattern p s) s rest

/-- `PatternCollection.collect_patterns`: fold the scan over the sentences,
candidate indexes being `range(Pattern.START_INDEX, len(sentence))`. -/
def PatternCollection.collect_patterns (sentences : List Sentence) : PatternCollection :=
  sentences.foldl
    (fun pc s => scanSentence pc s (List.range' Pattern.START_INDEX (s.length - Pattern.START_INDEX)))
    ⟨[], []⟩

/-- A line has leading whitespace when its first character is whitespace. -/
def hasLeadingWS (l : Str) : Bool :=
  match l with
  | [] => false
  | c :: _ => pySpace c

/-- A line has no two consecutive whitespace characters. -/
def noDoubledWS : Str → Bool
  | a :: b :: rest => (!(pySpace a && pySpace b)) && noDoubledWS (b :: rest)
  | _ => true

/-- The text of the word at position `i` of a sentence (empty when absent). -/
def wordTextAt (s : Sentence) (i : Nat) : Str :=
  ((s.map Word.word_str)[i]?).getD []

/-- The paragraph as the specification describes it: the rendered sentences
one per line in stored order separated by a single LF, then a trailer line
"The changing word was: " with the comma-joined word texts at the pattern
index in the same order, ending in CR LF. -/
def paragraphSpec (sentences : List Sentence) (i : Nat) : Str :=
  joinSep [nlChar] (sentences.map Sentence.render) ++
    nlChar :: changingWordHeader ++
    joinSep [commaChar] (sentences.map (fun s => wordTextAt s i)) ++ [crChar, nlChar]

/-- A sentence fits a pattern: the index lies in `[START_INDEX, len)` and
extracting the pattern string at that index gives the pattern's string. -/
def sentFits (s : Sentence) (p : Pattern) : Prop :=
  Pattern.START_INDEX ≤ p.pattern_index ∧ p.pattern_index < s.length ∧
    Pattern.extract_pattern_string s p.pattern_index = p.pattern_string

/-- Properties every parsed sentence enjoys: word texts contain no space
character, and a sentence of two or more words ends in a nonempty word. -/
def goodSentence (s : Sentence) : Prop :=
  (∀ w ∈ s, spaceChar ∉ w.word_str) ∧
    (2 ≤ s.length → ∀ w, s.getLast? = some w → w.word_str ≠ [])

/-- Number of stored sentences beyond the first of each pattern, i.e. the
total number of match-appended memberships. -/
def tailCount (pc : PatternCollection) : Nat :=
  (pc.data.map (fun e => e.2.length - 1)).sum

/-- Every sentence stored in the collection belongs to `S`. -/
def StoredIn (pc : PatternCollection) (S : List Sentence) : Prop :=
  ∀ p l, dictLookup pc.data p = some l → ∀ s ∈ l, s ∈ S

/-- Invariants maintained by `collect_patterns`. -/
structure CollInv (pc : PatternCollection) : Prop where
  fits : ∀ p l, dictLookup pc.data p = some l → ∀ s ∈ l, sentFits s p
  stored_ne : ∀ p l, dictLookup pc.data p = some l → l ≠ []
  groups_sub : ∀ p ∈ pc.pattern_groups, (dictLookup pc.data p).isSome = true
  group_iff : ∀ p l, dictLookup pc.data p = some l → (p ∈ pc.pattern_groups ↔ 2 ≤ l.length)

lemma splitOnSpace_cons (c : Char) (cs : Str) (w : Str) (ws : List Str)
    (h : splitOnSpace cs = w :: ws) :
    splitOnSpace (c :: cs) = if c = spaceChar then [] :: w :: ws else (c :: w) :: ws := by
  unfold splitOnSpace
  rw [h]

lemma splitOnSpace_ne_nil (l : Str) : splitOnSpace l ≠ [] := by
  induction l with
  | nil => simp [splitOnSpace]
  | cons c cs ih =>
    obtain ⟨w, ws, h⟩ : ∃ w ws, splitOnSpace cs = w :: ws := by
      cases hh : splitOnSpace cs with
      | nil => exact absurd hh ih
      | cons a b => exact ⟨a, b, rfl⟩
    rw [splitOnSpace_cons c cs w ws h]
    by_cases hc : c = spaceChar <;> simp [hc]

lemma splitOnSpace_exists_cons (l : Str) : ∃ w ws, splitOnSpace l = w :: ws := by
  cases h : splitOnSpace l with
  | nil => exact absurd h (splitOnSpace_ne_nil l)
  | cons a b => exact ⟨a, b, rfl⟩

lemma joinSep_cons_cons (sep w w2 : Str) (ws : List Str) :
    joinSep sep (w :: w2 :: ws) = w ++ sep ++ joinSep sep (w2 :: ws) := rfl

lemma join_split (l : Str) : joinSep [spaceChar] (splitOnSpace l) = l := by
  induction l with
  | nil => simp [splitOnSpace, joinSep]
  | cons c cs ih =>
    obtain ⟨w, ws, h⟩ := splitOnSpace_exists_cons cs
    rw [splitOnSpace_cons c cs w ws h]
    rw [h] at ih
    by_cases hc : c = spaceChar
    · rw [if_pos hc, joinSep_cons_cons, ih, hc]
      simp
    · rw [if_neg hc]
      cases ws with
      | nil =>
        have hw : w = cs := ih
        simp [joinSep, hw]
      | cons w2 ws2 =>
        rw [joinSep_cons_cons] at ih ⊢
        rw [← ih]
        simp

lemma splitOnSpace_no_space (l : Str) (h : spaceChar ∉ l) : splitOnSpace l = [l] := by
  induction l with
  | nil => rfl
  | cons c cs ih =>
    simp only [List.mem_cons, not_or] at h
    rw [splitOnSpace_cons c cs cs [] (ih h.2), if_neg (Ne.symm h.1)]

lemma splitOnSpace_append (w t : Str) (h : spaceChar ∉ w) :
    splitOnSpace (w ++ spaceChar :: t) = w :: splitOnSpace t := by
  induction w with
  | nil =>
    simp only [List.nil_append]
    obtain ⟨w2, ws, ht⟩ := splitOnSpace_exists_cons t
    rw [splitOnSpace_cons spaceChar t w2 ws ht, if_pos rfl, ht]
  | cons c w' ih =>
    simp only [List.mem_cons, not_or] at h
    simp only [List.cons_append]
    rw [splitOnSpace_cons c _ w' (splitOnSpace t) (ih h.2), if_neg (Ne.symm h.1)]

lemma splitOnSpace_join (ws : List Str) (hne : ws ≠ [])
    (hfree : ∀ w ∈ ws, spaceChar ∉ w) :
    splitOnSpace (joinSep [spaceChar] ws) = ws := by
  induction ws with
  | nil => exact absurd rfl hne
  | cons w ws ih =>
    cases ws with
    | nil =>
      simp only [joinSep]
      exact splitOnSpace_no_space w (hfree w (by simp))
    | cons w2 ws2 =>
      have hj : joinSep [spaceChar] (w :: w2 :: ws2) =
          w ++ spaceChar :: joinSep [spaceChar] (w2 :: ws2) := by
        rw [joinSep_cons_cons]
        simp
      rw [hj, splitOnSpace_append w _ (hfree w (by simp))]
      rw [ih (by simp) (fun x hx => hfree x (List.mem_cons_of_mem w hx))]

lemma head?_dropWhile {p : Char → Bool} (l : Str) (c : Char)
    (h : (l.dropWhile p).head? = some c) : p c = false := by
  induction l with
  | nil => simp [List.dropWhile] at h
  | cons a l ih =>
    by_cases ha : p a
    · rw [List.dropWhile_cons_of_pos ha] at h
      exact ih h
    · rw [List.dropWhile_cons_of_neg ha] at h
      simp only [List.head?_cons, Option.some.injEq] at h
      rw [← h]
      exact Bool.eq_false_iff.mpr ha

lemma pyStrip_getLast (l : Str) (c : Char) (h : (pyStrip l).getLast? = some c) :
    pySpace c = false := by
  unfold pyStrip at h
  rw [List.getLast?_reverse] at h
  exact head?_dropWhile _ _ h

lemma dropWhile_eq_self_of_head (l : Str) (h : hasLeadingWS l = false) :
    l.dropWhile pySpace = l := by
  cases l with
  | nil => rfl
  | cons c cs =>
    simp only [hasLeadingWS] at h
    exact List.dropWhile_cons_of_neg (by simp [h])

lemma pyStrip_eq_self (l : Str) (h1 : hasLeadingWS l = false)
    (h2 : hasLeadingWS l.reverse = false) : pyStrip l = l := by
  unfold pyStrip
  rw [dropWhile_eq_self_of_head l h1, dropWhile_eq_self_of_head l.reverse h2,
    List.reverse_reverse]

lemma create_word_texts (line : Str) :
    (Sentence.create line).map Word.word_str = splitOnSpace (pyStrip line) := by
  unfold Sentence.create
  rw [List.map_map]
  exact List.enum_map_snd (splitOnSpace (pyStrip line))

lemma render_create (line : Str) :
    Sentence.render (Sentence.create line) = joinSep [spaceChar] (splitOnSpace (pyStrip line)) := by
  unfold Sentence.render Sentence.get_words_string
  rw [create_word_texts]

lemma dictLookup_append_of_some (d1 d2 : List (Pattern × List Sentence)) (p : Pattern)
    (l : List Sentence) (h : dictLookup d1 p = some l) :
    dictLookup (d1 ++ d2) p = some l := by
  induction d1 with
  | nil => simp [dictLookup] at h
  | cons e rest ih =>
    obtain ⟨q, l'⟩ := e
    by_cases hq : q = p
    · simp only [dictLookup, if_pos hq] at h
      simp [dictLookup, hq, h]
    · simp only [dictLookup, if_neg hq] at h
      simp [dictLookup, hq, ih h]

lemma dictLookup_append_of_none (d1 d2 : List (Pattern × List Sentence)) (p : Pattern)
    (h : dictLookup d1 p = none) :
    dictLookup (d1 ++ d2) p = dictLookup d2 p := by
  induction d1 with
  | nil => simp
  | cons e rest ih =>
    obtain ⟨q, l'⟩ := e
    by_cases hq : q = p
    · simp [dictLookup, if_pos hq] at h
    · simp only [dictLookup, if_neg hq] at h
      simp [dictLookup, hq, ih h]

lemma dictLookup_dictAppend (d : List (Pattern × List Sentence)) (p : Pattern) (s : Sentence)
    (q : Pattern) :
    dictLookup (dictAppend d p s) q =
      if q = p then (dictLookup d p).map (fun l => l ++ [s]) else dictLookup d q := by
  induction d with
  | nil => by_cases hq : q = p <;> simp [dictAppend, dictLookup, hq]
  | cons e rest ih =>
    obtain ⟨q', l⟩ := e
    by_cases h1 : q' = p
    · subst h1
      by_cases h2 : q' = q
      · subst h2
        simp [dictAppend, dictLookup]
      · have h2' : ¬q = q' := Ne.symm h2
        simp [dictAppend, dictLookup, h2, h2']
    · by_cases h2 : q' = q
      · subst h2
        have h1' : ¬q' = p := h1
        simp [dictAppend, dictLookup, h1']
      · simp only [dictAppend, if_neg h1, dictLookup, if_neg h2]
        exact ih

lemma lookup_add (pc : PatternCollection) (p : Pattern) (s : Sentence) (q : Pattern)
    (hnone : dictLookup pc.data p = none) :
    dictLookup (pc.add_pattern p s).data q =
      if q = p then some [s] else dictLookup pc.data q := by
  unfold PatternCollection.add_pattern
  by_cases hq : q = p
  · subst hq
    rw [if_pos rfl, dictLookup_append_of_none _ _ _ hnone]
    simp [dictLookup]
  · rw [if_neg hq]
    cases h : dictLookup pc.data q with
    | some l => exact dictLookup_append_of_some _ _ _ _ h
    | none =>
      rw [dictLookup_append_of_none _ _ _ h]
      simp [dictLookup, Ne.symm hq]

lemma lookup_update (pc : PatternCollection) (p : Pattern) (s : Sentence) (q : Pattern) :
    dictLookup (pc.update_pattern p s).data q =
      if q = p then (dictLookup pc.data p).map (fun l => l ++ [s])
      else dictLookup pc.data q :=
  dictLookup_dictAppend pc.data p s q

lemma mem_groups_update (pc : PatternCollection) (p : Pattern) (s : Sentence) (q : Pattern) :
    q ∈ (pc.update_pattern p s).pattern_groups ↔ q ∈ pc.pattern_groups ∨ q = p := by
  unfold PatternCollection.update_pattern
  by_cases hp : p ∈ pc.pattern_groups
  · simp only [if_pos hp]
    constructor
    · exact fun h => Or.inl h
    · rintro (h | rfl)
      · exact h
      · exact hp
  · simp [if_neg hp]

lemma collInv_empty : CollInv ⟨[], []⟩ := by
  refine ⟨?_, ?_, ?_, ?_⟩ <;> intro p <;> simp [dictLookup]

lemma collInv_add (pc : PatternCollection) (p : Pattern) (s : Sentence)
    (hinv : CollInv pc) (hnone : dictLookup pc.data p = none) (hfit : sentFits s p) :
    CollInv (pc.add_pattern p s) := by
  have hlook := lookup_add pc p s
  have hgroups : (pc.add_pattern p s).pattern_groups = pc.pattern_groups := rfl
  refine ⟨?_, ?_, ?_, ?_⟩
  · intro q l hl s' hs'
    rw [hlook q hnone] at hl
    by_cases hq : q = p
    · rw [if_pos hq] at hl
      cases hl
      simp only [List.mem_singleton] at hs'
      subst hs'
      exact hq ▸ hfit
    · rw [if_neg hq] at hl
      exact hinv.fits q l hl s' hs'
  · intro q l hl
    rw [hlook q hnone] at hl
    by_cases hq : q = p
    · rw [if_pos hq] at hl
      cases hl
      simp
    · rw [if_neg hq] at hl
      exact hinv.stored_ne q l hl
  · intro q hq
    rw [hgroups] at hq
    rw [hlook q hnone]
    by_cases hqp : q = p
    · simp [if_pos hqp]
    · rw [if_neg hqp]
      exact hinv.groups_sub q hq
  · intro q l hl
    rw [hgroups]
    rw [hlook q hnone] at hl
    by_cases hq : q = p
    · rw [if_pos hq] at hl
      cases hl
      subst hq
      constructor
      · intro hmem
        have := hinv.groups_sub q hmem
        rw [hnone] at this
        simp at this
      · intro hlen
        simp at hlen
    · rw [if_neg hq] at hl
      exact hinv.group_iff q l hl

lemma collInv_update (pc : PatternCollection) (p : Pattern) (s : Sentence)
    (l0 : List Sentence) (hinv : CollInv pc)
    (hsome : dictLookup pc.data p = some l0) (hfit : sentFits s p) :
    CollInv (pc.update_pattern p s) := by
  have hlook := lookup_update pc p s
  refine ⟨?_, ?_, ?_, ?_⟩
  · intro q l hl s' hs'
    rw [hlook q] at hl
    by_cases hq : q = p
    · rw [if_pos hq, hsome] at hl
      simp only [Option.map_some'] at hl
      cases hl
      rcases List.mem_append.mp hs' with h0 | h1
      · exact hinv.fits q l0 (hq ▸ hsome) s' h0
      · simp only [List.mem_singleton] at h1
        subst h1
        exact hq ▸ hfit
    · rw [if_neg hq] at hl
      exact hinv.fits q l hl s' hs'
  · intro q l hl
    rw [hlook q] at hl
    by_cases hq : q = p
    · rw [if_pos hq, hsome] at hl
      simp only [Option.map_some'] at hl
      cases hl
      simp
    · rw [if_neg hq] at hl
      exact hinv.stored_ne q l hl
  · intro q hq
    rw [mem_groups_update pc p s q] at hq
    rw [hlook q]
    by_cases hqp : q = p
    · rw [if_pos hqp, hsome]
      simp
    · rw [if_neg hqp]
      rcases hq with hq | hq
      · exact hinv.groups_sub q hq
      · exact absurd hq hqp
  · intro q l hl
    rw [hlook q] at hl
    rw [mem_groups_update pc p s q]
    by_cases hq : q = p
    · rw [if_pos hq, hsome] at hl
      simp only [Option.map_some'] at hl
      cases hl
      have hne := hinv.stored_ne p l0 hsome
      have hlen : 1 ≤ l0.length := List.length_pos.mpr hne
      simp only [List.length_append, List.length_singleton]
      constructor
      · intro _
        omega
      · intro _
        exact Or.inr hq
    · rw [if_neg hq] at hl
      constructor
      · rintro (hmem | hmem)
        · exact (hinv.group_iff q l hl).mp hmem
        · exact absurd hmem hq
      · intro hlen
        exact Or.inl ((hinv.group_iff q l hl).mpr hlen)

lemma sentFits_create (s : Sentence) (i : Nat)
    (h1 : Pattern.START_INDEX ≤ i) (h2 : i < s.length) :
    sentFits s (Pattern.create s i) :=
  ⟨h1, h2, rfl⟩

lemma collInv_scan (s : Sentence) (idxs : List Nat) :
    ∀ pc : PatternCollection, CollInv pc →
      (∀ i ∈ idxs, Pattern.START_INDEX ≤ i ∧ i < s.length) →
      CollInv (scanSentence pc s idxs) := by
  induction idxs with
  | nil => intro pc hinv _; exact hinv
  | cons i rest ih =>
    intro pc hinv hidx
    have hi := hidx i (by simp)
    have hfit := sentFits_create s i hi.1 hi.2
    unfold scanSentence
    by_cases h : pc.has_pattern (Pattern.create s i)
    · rw [if_pos h]
      unfold PatternCollection.has_pattern at h
      obtain ⟨l0, hl0⟩ := Option.isSome_iff_exists.mp h
      exact collInv_update pc _ s l0 hinv hl0 hfit
    · rw [if_neg h]
      unfold PatternCollection.has_pattern at h
      have hnone : dictLookup pc.data (Pattern.create s i) = none := by
        cases hc : dictLookup pc.data (Pattern.create s i) with
        | none => rfl
        | some l => rw [hc] at h; simp at h
      exact ih (pc.add_pattern (Pattern.create s i) s)
        (collInv_add pc _ s hinv hnone hfit)
        (fun j hj => hidx j (List.mem_cons_of_mem i hj))

lemma range'_bounds (n i : Nat)
    (h : i ∈ List.range' Pattern.START_INDEX (n - Pattern.START_INDEX)) :
    Pattern.START_INDEX ≤ i ∧ i < n := by
  rw [List.mem_range'_1] at h
  unfold Pattern.START_INDEX at h ⊢
  omega

lemma collInv_collect (sentences : List Sentence) :
    CollInv (PatternCollection.collect_patterns sentences) := by
  unfold PatternCollection.collect_patterns
  suffices h : ∀ (ss : List Sentence) (pc : PatternCollection), CollInv pc →
      CollInv (ss.foldl (fun pc s =>
        scanSentence pc s (List.range' Pattern.START_INDEX (s.length - Pattern.START_INDEX))) pc) by
    exact h sentences ⟨[], []⟩ collInv_empty
  intro ss
  induction ss with
  | nil => intro pc hinv; exact hinv
  | cons s ss ih =>
    intro pc hinv
    rw [List.foldl_cons]
    exact ih _ (collInv_scan s _ pc hinv (fun i hi => range'_bounds s.length i hi))

lemma tailCount_dictAppend (d : List (Pattern × List Sentence)) (p : Pattern) (s : Sentence) :
    ((dictAppend d p s).map (fun e => e.2.length - 1)).sum ≤
      (d.map (fun e => e.2.length - 1)).sum + 1 := by
  induction d with
  | nil => simp [dictAppend]
  | cons e rest ih =>
    obtain ⟨q, l⟩ := e
    by_cases hq : q = p
    · simp only [dictAppend, if_pos hq, List.map_cons, List.sum_cons, List.length_append,
        List.length_singleton]
      omega
    · simp only [dictAppend, if_neg hq, List.map_cons, List.sum_cons]
      omega

lemma tailCount_update (pc : PatternCollection) (p : Pattern) (s : Sentence) :
    tailCount (pc.update_pattern p s) ≤ tailCount pc + 1 :=
  tailCount_dictAppend pc.data p s

lemma tailCount_add (pc : PatternCollection) (p : Pattern) (s : Sentence) :
    tailCount (pc.add_pattern p s) = tailCount pc := by
  unfold tailCount PatternCollection.add_pattern
  simp

lemma groups_len_update (pc : PatternCollection) (p : Pattern) (s : Sentence) :
    (pc.update_pattern p s).pattern_groups.length ≤ pc.pattern_groups.length + 1 := by
  unfold PatternCollection.update_pattern
  by_cases hp : p ∈ pc.pattern_groups <;> simp [hp]

lemma scan_bounds (s : Sentence) (idxs : List Nat) :
    ∀ pc : PatternCollection,
      tailCount (scanSentence pc s idxs) ≤ tailCount pc + 1 ∧
      (scanSentence pc s idxs).pattern_groups.length ≤ pc.pattern_groups.length + 1 := by
  induction idxs with
  | nil =>
    intro pc
    constructor <;> simp [scanSentence]
  | cons i rest ih =>
    intro pc
    unfold scanSentence
    by_cases h : pc.has_pattern (Pattern.create s i)
    · rw [if_pos h]
      exact ⟨tailCount_update pc _ s, groups_len_update pc _ s⟩
    · rw [if_neg h]
      have hrec := ih (pc.add_pattern (Pattern.create s i) s)
      have h1 := tailCount_add pc (Pattern.create s i) s
      have h2 : (pc.add_pattern (Pattern.create s i) s).pattern_groups = pc.pattern_groups := rfl
      rw [h1] at hrec
      rw [h2] at hrec
      exact hrec

lemma collect_bounds (sentences : List Sentence) :
    tailCount (PatternCollection.collect_patterns sentences) ≤ sentences.length ∧
    (PatternCollection.collect_patterns sentences).pattern_groups.length ≤ sentences.length := by
  unfold PatternCollection.collect_patterns
  suffices h : ∀ (ss : List Sentence) (pc : PatternCollection),
      tailCount (ss.foldl (fun pc s =>
        scanSentence pc s (List.range' Pattern.START_INDEX (s.length - Pattern.START_INDEX))) pc) ≤
        tailCount pc + ss.length ∧
      (ss.foldl (fun pc s =>
        scanSentence pc s (List.range' Pattern.START_INDEX (s.length - Pattern.START_INDEX))) pc).pattern_groups.length ≤
        pc.pattern_groups.length + ss.length by
    have := h sentences ⟨[], []⟩
    simpa [tailCount] using this
  intro ss
  induction ss with
  | nil => intro pc; simp
  | cons s ss ih =>
    intro pc
    rw [List.foldl_cons]
    have h1 := scan_bounds s (List.range' Pattern.START_INDEX (s.length - Pattern.START_INDEX)) pc
    have h2 := ih (scanSentence pc s (List.range' Pattern.START_INDEX (s.length - Pattern.START_INDEX)))
    simp only [List.length_cons]
    omega

lemma storedIn_scan (S : List Sentence) (s : Sentence) (hs : s ∈ S) (idxs : List Nat) :
    ∀ pc : PatternCollection, StoredIn pc S → StoredIn (scanSentence pc s idxs) S := by
  induction idxs with
  | nil => intro pc h; exact h
  | cons i rest ih =>
    intro pc hst
    unfold scanSentence
    by_cases h : pc.has_pattern (Pattern.create s i)
    · rw [if_pos h]
      intro q l hl s' hs'
      rw [lookup_update pc _ s q] at hl
      by_cases hq : q = Pattern.create s i
      · rw [if_pos hq] at hl
        cases hc : dictLookup pc.data (Pattern.create s i) with
        | none => rw [hc] at hl; simp at hl
        | some l0 =>
          rw [hc] at hl
          simp only [Option.map_some'] at hl
          cases hl
          rcases List.mem_append.mp hs' with h0 | h0
          · exact hst _ l0 (hq ▸ hc) s' h0
          · simp only [List.mem_singleton] at h0
            subst h0
            exact hs
      · rw [if_neg hq] at hl
        exact hst q l hl s' hs'
    · rw [if_neg h]
      refine ih (pc.add_pattern (Pattern.create s i) s) ?_
      intro q l hl s' hs'
      unfold PatternCollection.has_pattern at h
      have hnone : dictLookup pc.data (Pattern.create s i) = none := by
        cases hc : dictLookup pc.data (Pattern.create s i) with
        | none => rfl
        | some l1 => rw [hc] at h; simp at h
      rw [lookup_add pc _ s q hnone] at hl
      by_cases hq : q = Pattern.create s i
      · rw [if_pos hq] at hl
        cases hl
        simp only [List.mem_singleton] at hs'
        subst hs'
        exact hs
      · rw [if_neg hq] at hl
        exact hst q l hl s' hs'

lemma storedIn_collect (sentences : List Sentence) :
    StoredIn (PatternCollection.collect_patterns sentences) sentences := by
  unfold PatternCollection.collect_patterns
  suffices h : ∀ (ss : List Sentence) (pc : PatternCollection), StoredIn pc sentences →
      (∀ x ∈ ss, x ∈ sentences) →
      StoredIn (ss.foldl (fun pc s =>
        scanSentence pc s (List.range' Pattern.START_INDEX (s.length - Pattern.START_INDEX))) pc)
        sentences by
    refine h sentences ⟨[], []⟩ ?_ (fun x hx => hx)
    intro q l hl
    simp [dictLookup] at hl
  intro ss
  induction ss with
  | nil => intro pc h _; exact h
  | cons s ss ih =>
    intro pc hst hsub
    rw [List.foldl_cons]
    exact ih _ (storedIn_scan sentences s (hsub s (by simp)) _ pc hst)
      (fun x hx => hsub x (List.mem_cons_of_mem s hx))

lemma splitOnSpace_mem_no_space (l : Str) (w : Str) (h : w ∈ splitOnSpace l) :
    spaceChar ∉ w := by
  induction l generalizing w with
  | nil =>
    simp only [splitOnSpace, List.mem_singleton] at h
    subst h
    simp
  | cons c cs ih =>
    obtain ⟨w0, ws0, h0⟩ := splitOnSpace_exists_cons cs
    rw [splitOnSpace_cons c cs w0 ws0 h0] at h
    by_cases hc : c = spaceChar
    · rw [if_pos hc] at h
      rcases List.mem_cons.mp h with h1 | h1
      · subst h1; simp
      · exact ih w (by rw [h0]; exact h1)
    · rw [if_neg hc] at h
      rcases List.mem_cons.mp h with h1 | h1
      · subst h1
        intro hmem
        rcases List.mem_cons.mp hmem with h2 | h2
        · exact hc h2.symm
        · exact ih w0 (by rw [h0]; exact List.mem_cons_self w0 ws0) h2
      · exact ih w (by rw [h0]; exact List.mem_cons_of_mem w0 h1)

lemma create_length (line : Str) :
    (Sentence.create line).length = (splitOnSpace (pyStrip line)).length := by
  unfold Sentence.create
  simp

lemma joinSep_append_single (sep : Str) (ts : List Str) (w : Str) (h : ts ≠ []) :
    joinSep sep (ts ++ [w]) = joinSep sep ts ++ sep ++ w := by
  induction ts with
  | nil => exact absurd rfl h
  | cons t ts ih =>
    cases ts with
    | nil => simp [joinSep, joinSep_cons_cons]
    | cons t2 ts2 =>
      have hne : t2 :: ts2 ≠ [] := by simp
      simp only [List.cons_append, joinSep_cons_cons]
      rw [← List.cons_append, ih hne]
      simp [List.append_assoc]

lemma pySpace_spaceChar : pySpace spaceChar = true := by decide

lemma create_good (line : Str) : goodSentence (Sentence.create line) := by
  constructor
  · intro w hw
    unfold Sentence.create at hw
    rw [List.mem_map] at hw
    obtain ⟨wi, hwi, hEq⟩ := hw
    obtain ⟨k, tok⟩ := wi
    cases hEq
    have hmem := List.mem_enum hwi
    exact splitOnSpace_mem_no_space _ tok (hmem.2 ▸ List.getElem_mem _)
  · intro hlen w hw
    intro hnil
    have h1 : (splitOnSpace (pyStrip line)).getLast? = some [] := by
      rw [← create_word_texts line, List.getLast?_map, hw]
      simp [hnil]
    have hlen2 : 2 ≤ (splitOnSpace (pyStrip line)).length := by
      rw [← create_length]; exact hlen
    have hsplit : (splitOnSpace (pyStrip line)).dropLast ++ [([] : Str)] =
        splitOnSpace (pyStrip line) := by
      refine List.dropLast_append_getLast? [] ?_
      rw [Option.mem_def, h1]
    have hdrop_ne : (splitOnSpace (pyStrip line)).dropLast ≠ [] := by
      have : (splitOnSpace (pyStrip line)).dropLast.length =
          (splitOnSpace (pyStrip line)).length - 1 := List.length_dropLast _
      intro hcontra
      rw [hcontra] at this
      simp at this
      omega
    have hline : pyStrip line = joinSep [spaceChar] (splitOnSpace (pyStrip line)) :=
      (join_split _).symm
    rw [← hsplit, joinSep_append_single _ _ _ hdrop_ne, List.append_nil] at hline
    have hlast : (pyStrip line).getLast? = some spaceChar := by
      rw [hline]
      exact List.getLast?_concat _
    have := pyStrip_getLast line spaceChar hlast
    rw [pySpace_spaceChar] at this
    simp at this

lemma extract_eq_join (s : Sentence) (i : Nat) :
    Pattern.extract_pattern_string s i =
      joinSep [spaceChar]
        (((s.map Word.word_str).drop 2).take (i - 2) ++
          ((s.map Word.word_str).drop (i + 1)).take (s.length - (i + 1))) := by
  unfold Pattern.extract_pattern_string Sentence.get_words_string
    Sentence.get_sub_sentence_words Pattern.START_INDEX
  simp [List.map_take, List.map_drop]

lemma second_chunk_not_empty_word (X : Sentence) (g : goodSentence X) (hlen : X.length = 4)
    (h : ((X.map Word.word_str).drop 3).take (X.length - 3) = [([] : Str)]) : False := by
  have h0 : (X.map Word.word_str)[3]? = some [] := by
    have hc := congrArg (fun l => l[0]?) h
    simp only [List.getElem?_take, List.getElem?_drop] at hc
    rw [if_pos (by omega)] at hc
    simpa using hc
  have hlast : (X.map Word.word_str).getLast? = some [] := by
    rw [List.getLast?_eq_getElem?, List.length_map, hlen]
    exact h0
  rw [List.getLast?_map] at hlast
  obtain ⟨w, hw, hwstr⟩ := Option.map_eq_some'.mp hlast
  exact g.2 (by omega) w hw hwstr

lemma fits_agree (A B : Sentence) (p : Pattern) (hA : sentFits A p) (hB : sentFits B p)
    (gA : goodSentence A) (gB : goodSentence B) :
    A.length = B.length ∧
      ∀ j, 2 ≤ j → j < A.length → j ≠ p.pattern_index →
        (A.map Word.word_str)[j]? = (B.map Word.word_str)[j]? := by
  obtain ⟨hA1, hA2, hA3⟩ := hA
  obtain ⟨hB1, hB2, hB3⟩ := hB
  unfold Pattern.START_INDEX at hA1 hB1
  have hjoin : joinSep [spaceChar]
      (((A.map Word.word_str).drop 2).take (p.pattern_index - 2) ++
        ((A.map Word.word_str).drop (p.pattern_index + 1)).take (A.length - (p.pattern_index + 1))) =
      joinSep [spaceChar]
      (((B.map Word.word_str).drop 2).take (p.pattern_index - 2) ++
        ((B.map Word.word_str).drop (p.pattern_index + 1)).take (B.length - (p.pattern_index + 1))) := by
    rw [← extract_eq_join A p.pattern_index, ← extract_eq_join B p.pattern_index, hA3, hB3]
  set i := p.pattern_index with hidef
  set TA := A.map Word.word_str with hTA
  set TB := B.map Word.word_str with hTB
  have hTAlen : TA.length = A.length := by rw [hTA, List.length_map]
  have hTBlen : TB.length = B.length := by rw [hTB, List.length_map]
  set wsA := (TA.drop 2).take (i - 2) ++ (TA.drop (i + 1)).take (A.length - (i + 1)) with hwsA
  set wsB := (TB.drop 2).take (i - 2) ++ (TB.drop (i + 1)).take (B.length - (i + 1)) with hwsB
  have hlenA : wsA.length = A.length - 3 := by
    rw [hwsA]
    simp only [List.length_append, List.length_take, List.length_drop, hTAlen]
    omega
  have hlenB : wsB.length = B.length - 3 := by
    rw [hwsB]
    simp only [List.length_append, List.length_take, List.length_drop, hTBlen]
    omega
  have hfreeA : ∀ w ∈ wsA, spaceChar ∉ w := by
    intro w hw
    rw [hwsA] at hw
    have hmem : w ∈ TA := by
      rcases List.mem_append.mp hw with h | h
      · exact List.mem_of_mem_drop (List.mem_of_mem_take h)
      · exact List.mem_of_mem_drop (List.mem_of_mem_take h)
    rw [hTA, List.mem_map] at hmem
    obtain ⟨x, hx, hxw⟩ := hmem
    exact hxw ▸ gA.1 x hx
  have hfreeB : ∀ w ∈ wsB, spaceChar ∉ w := by
    intro w hw
    rw [hwsB] at hw
    have hmem : w ∈ TB := by
      rcases List.mem_append.mp hw with h | h
      · exact List.mem_of_mem_drop (List.mem_of_mem_take h)
      · exact List.mem_of_mem_drop (List.mem_of_mem_take h)
    rw [hTB, List.mem_map] at hmem
    obtain ⟨x, hx, hxw⟩ := hmem
    exact hxw ▸ gB.1 x hx
  by_cases hA0 : wsA = []
  · by_cases hB0 : wsB = []
    · rw [hA0] at hlenA
      rw [hB0] at hlenB
      simp only [List.length_nil] at hlenA hlenB
      constructor
      · omega
      · intro j hj2 hjlt hji
        exfalso
        omega
    · exfalso
      have hjB : joinSep [spaceChar] wsB = [] := by
        rw [← hjoin, hA0]
        rfl
      have hBval : wsB = [([] : Str)] := by
        have := splitOnSpace_join wsB hB0 hfreeB
        rw [hjB] at this
        simp only [splitOnSpace] at this
        exact this.symm
      rw [hA0] at hlenA
      simp only [List.length_nil] at hlenA
      have hi2 : i = 2 := by omega
      have hB4 : B.length = 4 := by
        rw [hBval] at hlenB
        simp only [List.length_singleton] at hlenB
        omega
      refine second_chunk_not_empty_word B gB hB4 ?_
      rw [← hTB]
      have hws : wsB = (TB.drop (2 + 1)).take (B.length - (2 + 1)) := by
        rw [hwsB, hi2]
        simp
      rw [← hws, hBval]
  · by_cases hB0 : wsB = []
    · exfalso
      have hjA : joinSep [spaceChar] wsA = [] := by
        rw [hjoin, hB0]
        rfl
      have hAval : wsA = [([] : Str)] := by
        have := splitOnSpace_join wsA hA0 hfreeA
        rw [hjA] at this
        simp only [splitOnSpace] at this
        exact this.symm
      rw [hB0] at hlenB
      simp only [List.length_nil] at hlenB
      have hi2 : i = 2 := by omega
      have hA4 : A.length = 4 := by
        rw [hAval] at hlenA
        simp only [List.length_singleton] at hlenA
        omega
      refine second_chunk_not_empty_word A gA hA4 ?_
      rw [← hTA]
      have hws : wsA = (TA.drop (2 + 1)).take (A.length - (2 + 1)) := by
        rw [hwsA, hi2]
        simp
      rw [← hws, hAval]
    · have heq : wsA = wsB := by
        rw [← splitOnSpace_join wsA hA0 hfreeA, ← splitOnSpace_join wsB hB0 hfreeB, hjoin]
      have hlenEq : A.length = B.length := by
        have hc := congrArg List.length heq
        rw [hlenA, hlenB] at hc
        omega
      refine ⟨hlenEq, ?_⟩
      have hfirstlen : ((TA.drop 2).take (i - 2)).length = ((TB.drop 2).take (i - 2)).length := by
        rw [List.length_take, List.length_take, List.length_drop, List.length_drop, hTAlen,
          hTBlen, hlenEq]
      have hchunks := List.append_inj (hwsA ▸ hwsB ▸ heq) hfirstlen
      obtain ⟨hfirst, hsecond⟩ := hchunks
      intro j hj2 hjlt hji
      by_cases hjlti : j < i
      · have e1 : TA[j]? = ((TA.drop 2).take (i - 2))[j - 2]? := by
          rw [List.getElem?_take, if_pos (by omega), List.getElem?_drop]
          congr 1
          omega
        have e2 : TB[j]? = ((TB.drop 2).take (i - 2))[j - 2]? := by
          rw [List.getElem?_take, if_pos (by omega), List.getElem?_drop]
          congr 1
          omega
        rw [e1, e2, hfirst]
      · have hgt : i < j := by omega
        have e1 : TA[j]? = ((TA.drop (i + 1)).take (A.length - (i + 1)))[j - (i + 1)]? := by
          rw [List.getElem?_take, if_pos (by omega), List.getElem?_drop]
          congr 1
          omega
        have e2 : TB[j]? = ((TB.drop (i + 1)).take (B.length - (i + 1)))[j - (i + 1)]? := by
          rw [List.getElem?_take, if_pos (by omega), List.getElem?_drop]
          congr 1
          omega
        rw [e1, e2, hsecond]

lemma wordAt_nat (s : Sentence) (i : Nat) (h : i < s.length) :
    s.get_word_str_by_index (i : Int) = some (wordTextAt s i) := by
  have h0 : ¬((i : Int) < 0) := by omega
  simp [Sentence.get_word_str_by_index, pyListGet, wordTextAt, h0, Int.toNat_natCast,
    List.getElem?_map, List.getElem?_eq_getElem h]

lemma listMapM_eq_map {α β : Type} (f : α → Option β) (g : α → β) (xs : List α)
    (h : ∀ a ∈ xs, f a = some (g a)) : listMapM f xs = some (xs.map g) := by
  induction xs with
  | nil => rfl
  | cons a rest ih =>
    unfold listMapM
    rw [h a (by simp), ih (fun x hx => h x (List.mem_cons_of_mem a hx))]
    rfl

lemma listMapM_isSome {α β : Type} (f : α → Option β) (xs : List α)
    (h : ∀ a ∈ xs, (f a).isSome = true) : (listMapM f xs).isSome = true := by
  induction xs with
  | nil => rfl
  | cons a rest ih =>
    obtain ⟨b, hb⟩ := Option.isSome_iff_exists.mp (h a (by simp))
    obtain ⟨bs, hbs⟩ :=
      Option.isSome_iff_exists.mp (ih (fun x hx => h x (List.mem_cons_of_mem a hx)))
    unfold listMapM
    rw [hb, hbs]
    rfl

lemma paragraph_eq (sentences : List Sentence) (i : Nat)
    (hv : ∀ s ∈ sentences, i < s.length) :
    PatternCollection.get_pattern_collection_paragraph sentences i =
      some (paragraphSpec sentences i) := by
  unfold PatternCollection.get_pattern_collection_paragraph
  rw [listMapM_eq_map _ (fun s => wordTextAt s i) sentences
    (fun s hs => wordAt_nat s i (hv s hs))]
  rfl

/-- Claim C1 counterexample: with input lines "a b c d e", "a b c d X",
"a b Z d X", the sentence "a b c d X" occurs in the sentence lists of two
distinct patterns flagged as groups, so a sentence can contribute to two
groups. -/
theorem C1_counterexample :
    let pc := PatternCollection.collect_patterns
      (Sentence.parse_to_sentences
        ["a b c d e".toList, "a b c d X".toList, "a b Z d X".toList])
    (⟨"c d".toList, 4⟩ : Pattern) ≠ (⟨"d X".toList, 2⟩ : Pattern) ∧
    (⟨"c d".toList, 4⟩ : Pattern) ∈ pc.pattern_groups ∧
    (⟨"d X".toList, 2⟩ : Pattern) ∈ pc.pattern_groups ∧
    Sentence.create ("a b c d X".toList) ∈
      (dictLookup pc.data ⟨"c d".toList, 4⟩).getD [] ∧
    Sentence.create ("a b c d X".toList) ∈
      (dictLookup pc.data ⟨"d X".toList, 2⟩).getD [] := by
  decide

/-- Claim C1 (amended): each sentence's scan stops at its first matching
index, so processing one sentence appends it to at most one existing
pattern's list and flags at most one new group; over a whole run the number
of match-appended memberships (`tailCount`) and the number of group flags
are each bounded by the number of input sentences.  (A sentence may still
occur in two distinct groups: once as appended member, once as first
registrant of a tentative pattern later matched by another sentence.) -/
theorem C1_amended_single_match (sentences : List Sentence) :
    (tailCount (PatternCollection.collect_patterns sentences) ≤ sentences.length ∧
      (PatternCollection.collect_patterns sentences).pattern_groups.length ≤
        sentences.length) ∧
    ∀ (pc : PatternCollection) (s : Sentence) (idxs : List Nat),
      tailCount (scanSentence pc s idxs) ≤ tailCount pc + 1 ∧
      (scanSentence pc s idxs).pattern_groups.length ≤ pc.pattern_groups.length + 1 :=
  ⟨collect_bounds sentences, fun pc s idxs => scan_bounds s idxs pc⟩

/-- Claim C4: on the two input lines "A B C D" and "A B X D" the pipeline
produces exactly one group, with pattern index 2, and its paragraph is
"A B C D\nA B X D\nThe changing word was: C,X\r\n". -/
theorem C4_example_pipeline :
    (PatternCollection.collect_patterns
      (Sentence.parse_to_sentences ["A B C D".toList, "A B X D".toList])).pattern_groups =
      [⟨"D".toList, 2⟩] ∧
    (PatternCollection.collect_patterns
      (Sentence.parse_to_sentences
        ["A B C D".toList, "A B X D".toList])).extract_pattern_groups_output =
      some ["A B C D\nA B X D\nThe changing word was: C,X\r\n".toList] := by
  decide

/-- Claim C5 counterexample: parsing the empty line yields a sentence of
length one (a single word with empty text), not a sentence of length zero. -/
theorem C5_counterexample :
    (Sentence.create ("".toList)).length ≠ 0 ∧
    Sentence.create ("".toList) = [⟨0, []⟩] := by
  decide

/-- Claim C5 (amended): parsing an empty line, or a line that is all
whitespace, yields a sentence of length one containing a single word whose
text is empty (Python's `"".split(" ")` is `[""]`); such a sentence still
contributes no candidate pattern indices. -/
theorem C5_amended_whitespace_line (line : Str) (h : ∀ c ∈ line, pySpace c = true) :
    Sentence.create line = [⟨0, []⟩] ∧
    List.range' Pattern.START_INDEX ((Sentence.create line).length - Pattern.START_INDEX) = [] := by
  have hstrip : pyStrip line = [] := by
    unfold pyStrip
    rw [List.dropWhile_eq_nil_iff.mpr h]
    rfl
  have hcreate : Sentence.create line = [⟨0, []⟩] := by
    unfold Sentence.create
    rw [hstrip]
    rfl
  refine ⟨hcreate, ?_⟩
  rw [hcreate]
  rfl

/-- Witness for C5 (amended) at the all-whitespace line " ". -/
theorem C5_amended_whitespace_line_witness :
    Sentence.create [spaceChar] = [⟨0, []⟩] :=
  (C5_amended_whitespace_line [spaceChar] (by decide)).1

/-- Claim C6 counterexample: on the one-word sentence "A", the index -1 is
not a zero-based position of any word, yet `get_word_str_by_index` succeeds
(Python negative indexing) instead of failing with an IndexError. -/
theorem C6_counterexample :
    Sentence.get_word_str_by_index (Sentence.create ("A".toList)) (-1) =
      some ("A".toList) ∧ ((-1 : Int) < 0) := by
  decide

/-- Claim C6 (amended): `get_word_str_by_index` follows Python list
indexing: it fails exactly when the index is below `-len` or at least `len`;
a nonnegative index returns the word text at that zero-based position, and a
negative index `-k` with `k ≤ len` returns the word text at position
`len - k`. -/
theorem C6_amended_python_indexing (s : Sentence) (index : Int) :
    (s.get_word_str_by_index index = none ↔
      index < -(s.length : Int) ∨ (s.length : Int) ≤ index) ∧
    (0 ≤ index →
      s.get_word_str_by_index index = (s[index.toNat]?).map Word.word_str) ∧
    (index < 0 → -(s.length : Int) ≤ index →
      s.get_word_str_by_index index = (s[(index + s.length).toNat]?).map Word.word_str) := by
  simp only [Sentence.get_word_str_by_index, pyListGet]
  by_cases h : index < 0
  · simp only [if_pos h]
    by_cases h2 : (0 : Int) ≤ index + s.length
    · rw [if_pos h2]
      refine ⟨?_, ?_, ?_⟩
      · rw [Option.map_eq_none', List.getElem?_eq_none_iff]
        omega
      · intro hc
        exact absurd hc (by omega)
      · intro _ _
        rfl
    · rw [if_neg h2]
      refine ⟨?_, ?_, ?_⟩
      · simp only [Option.map_none']
        constructor
        · intro _
          omega
        · intro _
          trivial
      · intro hc
        exact absurd hc (by omega)
      · intro _ hc
        exact absurd hc (by omega)
  · simp only [if_neg h]
    rw [if_pos (by omega : (0 : Int) ≤ index)]
    refine ⟨?_, ?_, ?_⟩
    · rw [Option.map_eq_none', List.getElem?_eq_none_iff]
      omega
    · intro _
      rfl
    · intro hc
      exact absurd hc h

/-- Witness for C6 (amended): index -1 on the three-word sentence "A B C"
returns its last word. -/
theorem C6_amended_python_indexing_witness :
    Sentence.get_word_str_by_index (Sentence.create ("A B C".toList)) (-1) =
      some ("C".toList) := by
  have h := (C6_amended_python_indexing (Sentence.create ("A B C".toList)) (-1)).2.2
    (by decide) (by decide)
  rw [h]
  decide

/-- Claim C7: rendering a parsed line returns the original line whenever the
line has no leading whitespace, no trailing whitespace and no two
consecutive whitespace characters. -/
theorem C7_render_parse_roundtrip (line : Str)
    (h1 : hasLeadingWS line = false) (h2 : hasLeadingWS line.reverse = false)
    (h3 : noDoubledWS line = true) :
    Sentence.render (Sentence.create line) = line := by
  rw [render_create, pyStrip_eq_self line h1 h2]
  exact join_split line

/-- Witness for C7 at the line "a b". -/
theorem C7_render_parse_roundtrip_witness :
    Sentence.render (Sentence.create ("a b".toList)) = "a b".toList :=
  C7_render_parse_roundtrip ("a b".toList) (by decide) (by decide) (by decide)

/-- Claim C2: for any parsed input, any two sentences stored under a pattern
flagged as a group with pattern index `i` have equal word counts and agree
on the word text at every position `j` in `[2, len)` with `j ≠ i`. -/
theorem C2_group_uniformity (lines : List Str) (p : Pattern) (l : List Sentence)
    (A B : Sentence)
    (hl : dictLookup
      (PatternCollection.collect_patterns (Sentence.parse_to_sentences lines)).data p =
      some l)
    (hg : p ∈ (PatternCollection.collect_patterns
      (Sentence.parse_to_sentences lines)).pattern_groups)
    (hA : A ∈ l) (hB : B ∈ l) :
    A.length = B.length ∧
      ∀ j, 2 ≤ j → j < A.length → j ≠ p.pattern_index →
        (A.map Word.word_str)[j]? = (B.map Word.word_str)[j]? := by
  have hinv := collInv_collect (Sentence.parse_to_sentences lines)
  have hstored := storedIn_collect (Sentence.parse_to_sentences lines)
  have hgoodA : goodSentence A := by
    have hmem := hstored p l hl A hA
    rw [Sentence.parse_to_sentences, List.mem_map] at hmem
    obtain ⟨line, _, hline⟩ := hmem
    exact hline ▸ create_good line
  have hgoodB : goodSentence B := by
    have hmem := hstored p l hl B hB
    rw [Sentence.parse_to_sentences, List.mem_map] at hmem
    obtain ⟨line, _, hline⟩ := hmem
    exact hline ▸ create_good line
  exact fits_agree A B p (hinv.fits p l hl A hA) (hinv.fits p l hl B hB) hgoodA hgoodB

/-- Witness for C2 at the grouped sentences "A B C D" and "A B X D". -/
theorem C2_group_uniformity_witness :
    (Sentence.create ("A B C D".toList)).length =
      (Sentence.create ("A B X D".toList)).length :=
  (C2_group_uniformity ["A B C D".toList, "A B X D".toList] ⟨"D".toList, 2⟩
    [Sentence.create ("A B C D".toList), Sentence.create ("A B X D".toList)]
    (Sentence.create ("A B C D".toList)) (Sentence.create ("A B X D".toList))
    (by decide) (by decide) (by decide) (by decide)).1

/-- Claim C3: for a non-empty sentence list and a pattern index within every
sentence's bounds, the paragraph is the rendered sentences one per line in
stored order joined by LF, then the trailer "The changing word was: " with
the comma-joined word texts at the pattern index in the same order, ending
in CR LF. -/
theorem C3_paragraph_format (sentences : List Sentence) (i : Nat)
    (hne : sentences ≠ []) (hv : ∀ s ∈ sentences, i < s.length) :
    PatternCollection.get_pattern_collection_paragraph sentences i =
      some (paragraphSpec sentences i) :=
  paragraph_eq sentences i hv

/-- Witness for C3 at the sentences "A B C D", "A B X D" and index 2. -/
theorem C3_paragraph_format_witness :
    PatternCollection.get_pattern_collection_paragraph
      [Sentence.create ("A B C D".toList), Sentence.create ("A B X D".toList)] 2 =
      some (paragraphSpec
        [Sentence.create ("A B C D".toList), Sentence.create ("A B X D".toList)] 2) :=
  C3_paragraph_format
    [Sentence.create ("A B C D".toList), Sentence.create ("A B X D".toList)] 2
    (by decide) (by decide)

/-- Claim C8: a sentence with fewer than 3 words contributes no candidate
pattern indices (its index range is empty) and is stored under no pattern of
the collection built by `collect_patterns`, hence appears in no group. -/
theorem C8_short_sentence_excluded (sentences : List Sentence) (s : Sentence)
    (hs : s.length < 3) :
    List.range' Pattern.START_INDEX (s.length - Pattern.START_INDEX) = [] ∧
    ∀ p l, dictLookup (PatternCollection.collect_patterns sentences).data p = some l →
      s ∉ l := by
  constructor
  · have h0 : s.length - Pattern.START_INDEX = 0 := by
      unfold Pattern.START_INDEX
      omega
    rw [h0]
    rfl
  · intro p l hl hmem
    have hfit := (collInv_collect sentences).fits p l hl s hmem
    unfold sentFits Pattern.START_INDEX at hfit
    omega

/-- Witness for C8: the two-word sentence "q w" is stored in no pattern of
the collection built from "a b c d", "a b x d", "q w". -/
theorem C8_short_sentence_excluded_witness :
    Sentence.create ("q w".toList) ∉
      [Sentence.create ("a b c d".toList), Sentence.create ("a b x d".toList)] :=
  (C8_short_sentence_excluded
    (Sentence.parse_to_sentences ["a b c d".toList, "a b x d".toList, "q w".toList])
    (Sentence.create ("q w".toList)) (by decide)).2
    ⟨"d".toList, 2⟩
    [Sentence.create ("a b c d".toList), Sentence.create ("a b x d".toList)]
    (by decide)

/-- Claim C9: in any collection built by `collect_patterns` the pattern
index of every group is strictly within the bounds of every sentence stored
under it, so extracting the group output never hits an index error (it
always returns a value). -/
theorem C9_no_internal_index_error (sentences : List Sentence) :
    (∀ p ∈ (PatternCollection.collect_patterns sentences).pattern_groups,
      ∀ l, dictLookup (PatternCollection.collect_patterns sentences).data p = some l →
        ∀ s ∈ l, p.pattern_index < s.length) ∧
    ((PatternCollection.collect_patterns sentences).extract_pattern_groups_output).isSome =
      true := by
  have hinv := collInv_collect sentences
  constructor
  · intro p _ l hl s hs
    exact (hinv.fits p l hl s hs).2.1
  · unfold PatternCollection.extract_pattern_groups_output
    apply listMapM_isSome
    intro p hp
    obtain ⟨l, hl⟩ := Option.isSome_iff_exists.mp (hinv.groups_sub p hp)
    have hv : ∀ s ∈ l, p.pattern_index < s.length :=
      fun s hs => (hinv.fits p l hl s hs).2.1
    rw [hl]
    show (PatternCollection.get_pattern_collection_paragraph l p.pattern_index).isSome = true
    rw [paragraph_eq l p.pattern_index hv]
    rfl

/-- Witness for C9 at the input "A B C D", "A B X D". -/
theorem C9_no_internal_index_error_witness :
    ((PatternCollection.collect_patterns
      (Sentence.parse_to_sentences
        ["A B C D".toList, "A B X D".toList])).extract_pattern_groups_output).isSome =
      true ∧
    (2 : Nat) < (Sentence.create ("A B C D".toList)).length :=
  ⟨(C9_no_internal_index_error
      (Sentence.parse_to_sentences ["A B C D".toList, "A B X D".toList])).2,
    (C9_no_internal_index_error
      (Sentence.parse_to_sentences ["A B C D".toList, "A B X D".toList])).1
      ⟨"D".toList, 2⟩ (by decide)
      [Sentence.create ("A B C D".toList), Sentence.create ("A B X D".toList)]
      (by decide) (Sentence.create ("A B C D".toList)) (by decide)⟩

/-- Claim C10: a pattern is flagged as a group exactly when its stored
sentence list has at least two entries. -/
theorem C10_group_iff_two_members (sentences : List Sentence) (p : Pattern)
    (l : List Sentence)
    (hl : dictLookup (PatternCollection.collect_patterns sentences).data p = some l) :
    p ∈ (PatternCollection.collect_patterns sentences).pattern_groups ↔ 2 ≤ l.length :=
  (collInv_collect sentences).group_iff p l hl

/-- Witness for C10: on input "A B C D", "A B X D" the two-member pattern
("D", 2) is flagged as a group and the singleton pattern ("C", 3) is not. -/
theorem C10_group_iff_two_members_witness :
    (⟨"D".toList, 2⟩ : Pattern) ∈ (PatternCollection.collect_patterns
      (Sentence.parse_to_sentences ["A B C D".toList, "A B X D".toList])).pattern_groups ∧
    (⟨"C".toList, 3⟩ : Pattern) ∉ (PatternCollection.collect_patterns
      (Sentence.parse_to_sentences ["A B C D".toList, "A B X D".toList])).pattern_groups := by
  constructor
  · exact (C10_group_iff_two_members
      (Sentence.parse_to_sentences ["A B C D".toList, "A B X D".toList]) ⟨"D".toList, 2⟩
      [Sentence.create ("A B C D".toList), Sentence.create ("A B X D".toList)]
      (by decide)).mpr (by decide)
  · intro hmem
    have h := (C10_group_iff_two_members
      (Sentence.parse_to_sentences ["A B C D".toList, "A B X D".toList]) ⟨"C".toList, 3⟩
      [Sentence.create ("A B C D".toList)] (by decide)).mp hmem
    simp at h
